import Mathlib

/-
Verification of the kubePulse agent specification against a shallow
embedding of its Go sources.

Embedded components:
  * the pooled `Event` type with `Acquire` and `Release`
    (internal/event, mirrored in internal/metadata/cache.go bundle);
  * the event `Bus` with `Subscribe`, `Publish`, and `Stats`;
  * the Prometheus exporter loop `collectBusStats`;
  * the DNS module label construction and `TruncateDomain`
    (internal/probes/dns/dns.go);
  * the TCP module label and numeric construction plus `FormatIPv4`
    (internal/probes/tcp/tcp.go);
  * the PID-to-pod metadata `Cache` with `Lookup`, `set`, `evict`,
    `UpdatePod`, `DeletePod` (internal/metadata/cache.go);
  * the cgroup container-id extraction `extractContainerID`
    (internal/metadata cgroup resolver).

Go maps that are written by key assignment are modelled as association
lists with in-place overwrite (`setKV`) and first-match lookup (`getKV`).
Machine integers are modelled as `Nat` (all counters are monotone and far
from overflow in every statement below); `float64` values that the code
derives by exact decimal arithmetic are modelled as `Rat`.
-/

namespace KubePulse

/-- Association-list update with Go map-assignment semantics: an existing
binding of the key is overwritten in place, otherwise the binding is
appended at the end. -/
def setKV {κ α : Type} [DecidableEq κ] : List (κ × α) → κ → α → List (κ × α)
  | [], k, v => [(k, v)]
  | (k', v') :: t, k, v =>
    if k' = k then (k, v) :: t else (k', v') :: setKV t k v

/-- Association-list lookup: first binding of the key, if any. -/
def getKV {κ α : Type} [DecidableEq κ] : List (κ × α) → κ → Option α
  | [], _ => none
  | (k', v') :: t, k => if k' = k then some v' else getKV t k

/-- Association-list removal of a key, modelling Go `delete(m, k)`. -/
def delKV {κ α : Type} [DecidableEq κ] (l : List (κ × α)) (k : κ) :
    List (κ × α) :=
  l.filter (fun kv => kv.1 ≠ k)

/-! ### The pooled Event type (package event) -/

/-- `EventType` mirrors the Go `event.EventType` discriminator. -/
inductive EventType : Type
  | unknown
  | tcp
  | dns
  | retransmit
  | rst
  | oom
  | exec
  | fileio
  | drop
  deriving DecidableEq, Repr

/-- `Event` mirrors the Go `event.Event` struct.  `Labels` and `Numeric`
are Go maps, modelled as association lists; `Timestamp` as a `Nat` clock
value; numeric values as `Rat`. -/
structure Event : Type where
  typ : EventType
  timestamp : Nat
  pid : Nat
  uid : Nat
  comm : String
  node : String
  ns : String
  pod : String
  labels : List (String × String)
  numeric : List (String × Rat)
  deriving DecidableEq, Repr

/-- The zero `Event`, as produced by the pool `New` function: maps
allocated empty, everything else zero. -/
def emptyEvent : Event :=
  { typ := .unknown, timestamp := 0, pid := 0, uid := 0, comm := ""
    node := "", ns := "", pod := "", labels := [], numeric := [] }

/-- `clearEvent` mirrors the field-clearing body of `Event.Release`:
discriminator to unknown, primitives to zero, strings to empty, and both
maps emptied (in Go the keys are deleted in place, retaining capacity). -/
def clearEvent (e : Event) : Event :=
  { e with typ := .unknown, timestamp := 0, pid := 0, uid := 0, comm := ""
           node := "", ns := "", pod := "", labels := [], numeric := [] }

/-- The event pool, modelled as a stack of pooled events.  `sync.Pool`
returns some previously put object or a fresh one; in the single-threaded
put-then-get discipline of the spec scenario the put object is returned. -/
def Pool : Type := List Event

/-- `release` mirrors `Event.Release`: clear all fields, return to pool. -/
def release (p : Pool) (e : Event) : Pool :=
  clearEvent e :: p

/-- `acquire` mirrors `event.Acquire` backed by `pool.Get`: pop a pooled
event, or allocate a fresh zero event when the pool is empty. -/
def acquire (p : Pool) : Event × Pool :=
  match p with
  | [] => (emptyEvent, [])
  | e :: t => (e, t)

/-! ### Go strings.Split / strings.Join on a single-character separator -/

/-- `splitOnChar sep s` mirrors Go `strings.Split(s, string(sep))`:
the (never empty) list of chunks of `s` between occurrences of `sep`. -/
def splitOnChar (sep : Char) : List Char → List (List Char)
  | [] => [[]]
  | c :: t =>
    if c = sep then [] :: splitOnChar sep t
    else
      match splitOnChar sep t with
      | [] => [[c]]
      | h :: r => (c :: h) :: r

/-- `joinDot` mirrors Go `strings.Join(parts, ".")`. -/
def joinDot : List (List Char) → List Char
  | [] => []
  | [x] => x
  | x :: y :: t => x ++ '.' :: joinDot (y :: t)

/-! ### dns.TruncateDomain (internal/probes/dns/dns.go) -/

/-- List-level body of `dns.TruncateDomain`: split on dots as Go
`strings.Split` does; if at most two parts, return the input unchanged,
otherwise join the last two parts with a dot. -/
def truncList (l : List Char) : List Char :=
  let parts := splitOnChar '.' l
  if parts.length ≤ 2 then l
  else joinDot (parts.drop (parts.length - 2))

/-- `TruncateDomain` from internal/probes/dns/dns.go, on Go strings. -/
def TruncateDomain (s : String) : String :=
  ⟨truncList s.data⟩

/-! ### The event bus (package event, Bus) -/

/-- Per-subscriber state: the bounded channel, modelled as the queue of
buffered events, and the per-subscriber drop counter (the Go code keeps
the counters in a parallel map keyed by the same name). -/
structure Subscriber : Type where
  queue : List Event
  dropped : Nat
  deriving DecidableEq, Repr

/-- `Bus` mirrors `event.Bus`: per-subscriber buffer size, the named
subscribers, the published counter and the closed flag. -/
structure Bus : Type where
  bufferSize : Nat
  subs : List (String × Subscriber)
  published : Nat
  closed : Bool
  deriving DecidableEq, Repr

/-- `NewBus`: a non-positive buffer size falls back to 4096. -/
def newBus (bufferSize : Nat) : Bus :=
  { bufferSize := if bufferSize = 0 then 4096 else bufferSize
    subs := [], published := 0, closed := false }

/-- `Bus.Subscribe`: assigns a fresh channel of capacity `bufferSize` to
the name and a fresh zero drop counter.  A prior registration under the
same name is overwritten, exactly as Go map assignment does. -/
def subscribe (b : Bus) (name : String) : Bus :=
  { b with subs := setKV b.subs name ⟨[], 0⟩ }

/-- One subscriber receiving one published event: a non-blocking channel
send succeeds exactly when the buffer holds fewer than `bufferSize`
events, otherwise the drop counter is incremented. -/
def publishOne (bufferSize : Nat) (e : Event) (s : Subscriber) : Subscriber :=
  if s.queue.length < bufferSize then { s with queue := s.queue ++ [e] }
  else { s with dropped := s.dropped + 1 }

/-- `Bus.Publish`: a no-op after close; otherwise increments `published`
and attempts a non-blocking send to every subscriber. -/
def publish (b : Bus) (e : Event) : Bus :=
  if b.closed then b
  else
    { b with published := b.published + 1
             subs := b.subs.map (fun p => (p.1, publishOne b.bufferSize e p.2)) }

/-- `event.Stats`, the snapshot returned by `Bus.Stats`. -/
structure BusStats : Type where
  published : Nat
  droppedBySubscriber : List (String × Nat)
  queueDepth : List (String × Nat)
  deriving DecidableEq, Repr

/-- `Bus.Stats`: published counter, per-subscriber drop counters, and
per-subscriber queue depths (`len(ch)`). -/
def stats (b : Bus) : BusStats :=
  { published := b.published
    droppedBySubscriber := b.subs.map (fun p => (p.1, p.2.dropped))
    queueDepth := b.subs.map (fun p => (p.1, p.2.queue.length)) }

/-! ### Prometheus self-observability collection (export/prometheus.go) -/

/-- The exporter-side state touched by `collectBusStats`: the
`events_dropped_total{subscriber}` counters and the
`eventbus_queue_depth{subscriber}` gauges. -/
structure PromState : Type where
  eventsDropped : List (String × Nat)
  busQueueDepth : List (String × Nat)
  deriving DecidableEq, Repr

/-- Prometheus `CounterVec.WithLabelValues(k).Add(v)`: the series is
created at zero on first use, then incremented by `v`. -/
def addCounter (l : List (String × Nat)) (k : String) (v : Nat) :
    List (String × Nat) :=
  setKV l k (((getKV l k).getD 0) + v)

/-- One tick of `Prometheus.collectBusStats`: take a bus stats snapshot,
`Set` every queue-depth gauge, and `Add` every subscriber drop count —
the absolute snapshot value, not a delta — to its counter. -/
def collectTick (p : PromState) (s : BusStats) : PromState :=
  { busQueueDepth :=
      s.queueDepth.foldl (fun acc kv => setKV acc kv.1 kv.2) p.busQueueDepth
    eventsDropped :=
      s.droppedBySubscriber.foldl (fun acc kv => addCounter acc kv.1 kv.2)
        p.eventsDropped }

/-! ### Kubernetes pod metadata (internal/metadata) -/

/-- `metadata.PodMeta`. -/
structure PodMeta : Type where
  podName : String
  nspace : String
  nodeName : String
  containerName : String
  containerID : String
  deriving DecidableEq, Repr

/-! ### The TCP module event construction (internal/probes/tcp/tcp.go) -/

/-- The BPF-side `rawEvent` of the tcp module (fields the userspace
consumer reads). -/
structure TCPRaw : Type where
  pid : Nat
  uid : Nat
  saddr : Nat
  daddr : Nat
  sport : Nat
  dport : Nat
  latencyNs : Nat
  timestamp : Nat
  comm : String
  deriving DecidableEq, Repr

/-- `FormatIPv4` from tcp.go: the four bytes of the address in source
byte order — low byte first — rendered dotted-decimal. -/
def FormatIPv4 (ip : Nat) : String :=
  Nat.repr (ip % 256) ++ "." ++ Nat.repr (ip / 256 % 256) ++ "." ++
    Nat.repr (ip / 65536 % 256) ++ "." ++ Nat.repr (ip / 16777216 % 256)

/-- The event built by the body of `tcp.Module.Start` for one decoded
raw record: type, identity, node, optional pod metadata, the
`src`/`dst` labels and the `latency_sec`/`latency_ns` numerics, set in
source order. -/
def handleTCP (raw : TCPRaw) (now : Nat) (node : String)
    (meta : Option PodMeta) : Event :=
  { typ := .tcp
    timestamp := now
    pid := raw.pid
    uid := raw.uid
    comm := raw.comm
    node := node
    ns := match meta with | some m => m.nspace | none => ""
    pod := match meta with | some m => m.podName | none => ""
    labels :=
      setKV (setKV [] "src" (FormatIPv4 raw.saddr ++ ":" ++ Nat.repr raw.sport))
        "dst" (FormatIPv4 raw.daddr ++ ":" ++ Nat.repr raw.dport)
    numeric :=
      setKV (setKV [] "latency_sec" ((raw.latencyNs : Rat) / (1e9 : Rat)))
        "latency_ns" ((raw.latencyNs : Rat)) }

/-! ### The DNS module event construction (internal/probes/dns/dns.go) -/

/-- The event built by the body of `dns.Module.Start` for one decoded
raw record with query name `qname`: the `qname` label is the full name,
the `domain` label is `TruncateDomain` of it. -/
def handleDNS (qname : String) (pid uid now : Nat) (comm node : String)
    (meta : Option PodMeta) : Event :=
  { typ := .dns
    timestamp := now
    pid := pid
    uid := uid
    comm := comm
    node := node
    ns := match meta with | some m => m.nspace | none => ""
    pod := match meta with | some m => m.podName | none => ""
    labels := setKV (setKV [] "qname" qname) "domain" (TruncateDomain qname)
    numeric := [] }

/-! ### The metadata cache (internal/metadata/cache.go) -/

/-- `metadata.Cache`: the PID cache maps a pid to its metadata and an
absolute expiry instant; `containerIndex` maps container ids to pod
metadata; `resolve` is the `resolveContainerID` hook (`none` covering
both a resolution error and the empty id of a non-container process). -/
structure MCache : Type where
  entries : List (Nat × (PodMeta × Nat))
  maxSize : Nat
  ttl : Nat
  containerIndex : List (String × PodMeta)
  resolve : Nat → Option String

/-- `NewCache`: non-positive MaxSize falls back to 8192 and non-positive
TTL to 60 time units (seconds in the Go code). -/
def newMCache (maxSize ttl : Nat) (resolve : Nat → Option String) : MCache :=
  { entries := []
    maxSize := if maxSize = 0 then 8192 else maxSize
    ttl := if ttl = 0 then 60 else ttl
    containerIndex := []
    resolve := resolve }

/-- `Cache.evict` at instant `now`: drop every expired entry
(`now.After(expires)`, strict); if the survivors still reach `maxSize`,
additionally remove `maxSize / 4` entries in (arbitrary) order. -/
def evictC (c : MCache) (now : Nat) : List (Nat × (PodMeta × Nat)) :=
  if c.maxSize ≤ (c.entries.filter (fun kv => ¬ (kv.2.2 < now))).length then
    (c.entries.filter (fun kv => ¬ (kv.2.2 < now))).drop (c.maxSize / 4)
  else c.entries.filter (fun kv => ¬ (kv.2.2 < now))

/-- `Cache.set` at instant `now`: evict first when the cache is full,
then store the entry with expiry `now + ttl`. -/
def setC (c : MCache) (pid : Nat) (meta : PodMeta) (now : Nat) : MCache :=
  { c with entries := setKV (if c.maxSize ≤ c.entries.length then evictC c now else c.entries) pid (meta, now + c.ttl) }

/-- The miss path of `Cache.Lookup`: resolve the container id from
/proc, look it up in the container index, and cache a hit. -/
def lookupMiss (c : MCache) (pid now : Nat) : Option PodMeta × MCache :=
  match c.resolve pid with
  | none => (none, c)
  | some cid =>
    match getKV c.containerIndex cid with
    | none => (none, c)
    | some meta => (some meta, setC c pid meta now)

/-- `Cache.Lookup` at instant `now`: a cached unexpired entry
(`now.Before(expires)`, strict) is returned directly; otherwise the miss
path runs. -/
def lookupC (c : MCache) (pid now : Nat) : Option PodMeta × MCache :=
  match getKV c.entries pid with
  | some (meta, expires) =>
    if now < expires then (some meta, c) else lookupMiss c pid now
  | none => lookupMiss c pid now

/-- `Cache.UpdatePod`. -/
def updatePod (c : MCache) (cid : String) (meta : PodMeta) : MCache :=
  { c with containerIndex := setKV c.containerIndex cid meta }

/-- `Cache.DeletePod`. -/
def deletePod (c : MCache) (cid : String) : MCache :=
  { c with containerIndex := delKV c.containerIndex cid }

/-- One client-visible cache operation, with the observation instant of
each stateful call made explicit. -/
inductive COp : Type
  | lookup (pid now : Nat)
  | insert (pid : Nat) (meta : PodMeta) (now : Nat)
  | update (cid : String) (meta : PodMeta)
  | remove (cid : String)

/-- Apply one operation to the cache state. -/
def applyOp (c : MCache) : COp → MCache
  | .lookup pid now => (lookupC c pid now).2
  | .insert pid meta now => setC c pid meta now
  | .update cid meta => updatePod c cid meta
  | .remove cid => deletePod c cid

/-- Run a sequence of cache operations. -/
def runOps (c : MCache) (ops : List COp) : MCache :=
  ops.foldl applyOp c

/-! ### Container-id extraction from a cgroup line (internal/metadata) -/

/-- A character of the regex class `[a-f0-9]`. -/
def isHexLower (c : Char) : Bool :=
  ('a' ≤ c && c ≤ 'f') || ('0' ≤ c && c ≤ '9')

/-- Match of `[a-f0-9]{64}` anchored at the start of `s`: the first 64
characters when they are all lowercase hex. -/
def hexAt (s : List Char) : Option (List Char) :=
  let t := s.take 64
  if t.length = 64 && t.all isHexLower then some t else none

/-- Match of `crio-([a-f0-9]{64})` anchored at the start of `s`,
returning the capture group. -/
def crioAt (s : List Char) : Option (List Char) :=
  if s.take 5 = ['c', 'r', 'i', 'o', '-'] then hexAt (s.drop 5) else none

/-- Match of `containerd://([a-f0-9]{64})` anchored at the start of `s`,
returning the capture group. -/
def containerdAt (s : List Char) : Option (List Char) :=
  if s.take 13 = ['c', 'o', 'n', 't', 'a', 'i', 'n', 'e', 'r', 'd',
      ':', '/', '/'] then hexAt (s.drop 13) else none

/-- Leftmost match: try the anchored matcher at every start position of
`s`, left to right, as the regexp engine does. -/
def firstSome (f : List Char → Option (List Char)) :
    List Char → Option (List Char)
  | [] => f []
  | c :: t =>
    match f (c :: t) with
    | some r => some r
    | none => firstSome f t

/-- `extractContainerID` from the metadata cgroup resolver: split the
line on colons; fewer than three fields means no id; otherwise try the
patterns against the third field in the order the code lists them —
bare `[a-f0-9]{64}` first, then `crio-`, then `containerd://` — and
return the match of the first pattern that hits (empty = no id). -/
def extractContainerID (line : List Char) : List Char :=
  let parts := splitOnChar ':' line
  if parts.length < 3 then []
  else
    let cgroupPath := parts.getD 2 []
    match firstSome hexAt cgroupPath with
    | some m => m
    | none =>
      match firstSome crioAt cgroupPath with
      | some m => m
      | none =>
        match firstSome containerdAt cgroupPath with
        | some m => m
        | none => []

/-- Modelled from the spec: the extraction order the spec describes —
`crio-<hex64>` first, then `containerd://<hex64>`, then the bare
`<hex64>` — for comparison with `extractContainerID`, which is the
order the code implements. -/
def specOrderExtractContainerID (line : List Char) : List Char :=
  let parts := splitOnChar ':' line
  if parts.length < 3 then []
  else
    let cgroupPath := parts.getD 2 []
    match firstSome crioAt cgroupPath with
    | some m => m
    | none =>
      match firstSome containerdAt cgroupPath with
      | some m => m
      | none =>
        match firstSome hexAt cgroupPath with
        | some m => m
        | none => []

/-- The observable behaviour of the code: since the bare pattern is
tried first and subsumes the other two, the id is the leftmost 64-char
lowercase-hex run of the third field, or nothing. -/
def leftmostHexExtract (line : List Char) : List Char :=
  let parts := splitOnChar ':' line
  if parts.length < 3 then []
  else (firstSome hexAt (parts.getD 2 [])).getD []

/-! ### Concrete values used by counterexamples and witnesses -/

/-- A sample pod metadata record. -/
def metaA : PodMeta :=
  { podName := "my-pod", nspace := "default", nodeName := "node1"
    containerName := "app", containerID := "c1" }

/-- A resolver mapping pid 42 to container id c1, everything else to a
non-container process. -/
def resolve42 : Nat → Option String :=
  fun p => if p = 42 then some "c1" else none

/-- Cache primed with the container index entry for c1. -/
def cacheCE0 : MCache :=
  { entries := [], maxSize := 100, ttl := 60
    containerIndex := [("c1", metaA)], resolve := resolve42 }

/-- The cache after a first successful lookup of pid 42 at instant 0,
which caches the PID entry. -/
def cacheCE1 : MCache := (lookupC cacheCE0 42 0).2

/-- The cache after the pod is deleted: the container index entry for c1
is gone, but the PID entry for 42 is still cached and unexpired. -/
def cacheCE2 : MCache := deletePod cacheCE1 "c1"

/-- Sixty-four letters a: a bare lowercase-hex container id. -/
def hexA : List Char := List.replicate 64 'a'

/-- Sixty-four letters b: a different lowercase-hex container id. -/
def hexB : List Char := List.replicate 64 'b'

/-- A cgroup line whose third field holds a bare hex64 id before a
`crio-`-prefixed hex64 id. -/
def ceLine : List Char :=
  ("0:m:/").data ++ hexA ++ ("/crio-").data ++ hexB

/-! ### Lemmas and claim theorems -/

theorem getKV_setKV_self {κ α : Type} [DecidableEq κ]
    (l : List (κ × α)) (k : κ) (v : α) : getKV (setKV l k v) k = some v := by
  induction l with
  | nil => simp [setKV, getKV]
  | cons hd t ih =>
    by_cases h : hd.1 = k
    · simp [setKV, h, getKV]
    · simp [setKV, h, getKV, ih]

theorem length_setKV_le {κ α : Type} [DecidableEq κ]
    (l : List (κ × α)) (k : κ) (v : α) :
    (setKV l k v).length ≤ l.length + 1 := by
  induction l with
  | nil => simp [setKV]
  | cons hd t ih =>
    obtain ⟨k', v'⟩ := hd
    by_cases h : k' = k
    · simp only [setKV, if_pos h, List.length_cons]
      omega
    · simp only [setKV, if_neg h, List.length_cons]
      omega

theorem splitOnChar_ne_nil (sep : Char) (s : List Char) :
    splitOnChar sep s ≠ [] := by
  cases s with
  | nil => simp [splitOnChar]
  | cons c t =>
    by_cases h : c = sep
    · simp [splitOnChar, h]
    · simp only [splitOnChar, h, if_false]
      cases splitOnChar sep t <;> simp

theorem not_mem_of_mem_splitOnChar (sep : Char) :
    ∀ (s : List Char) (p : List Char), p ∈ splitOnChar sep s → sep ∉ p := by
  intro s
  induction s with
  | nil =>
    intro p hp
    simp [splitOnChar] at hp
    simp [hp]
  | cons c t ih =>
    intro p hp
    by_cases h : c = sep
    · simp only [splitOnChar, h, if_true, List.mem_cons] at hp
      rcases hp with h1 | h2
      · simp [h1]
      · exact ih p h2
    · simp only [splitOnChar, h, if_false] at hp
      rcases hsplit : splitOnChar sep t with _ | ⟨hd, r⟩
      · exact absurd hsplit (splitOnChar_ne_nil sep t)
      · rw [hsplit] at hp
        rcases List.mem_cons.mp hp with h1 | h2
        · subst h1
          intro hmem
          rcases List.mem_cons.mp hmem with rfl | hmem'
          · exact h rfl
          · exact ih hd (hsplit ▸ List.mem_cons_self hd r) hmem'
        · exact ih p (hsplit ▸ List.mem_cons_of_mem hd h2)

theorem splitOnChar_append_nosep (sep : Char) :
    ∀ (a s : List Char), sep ∉ a →
      splitOnChar sep (a ++ s) =
        (a ++ (splitOnChar sep s).headI) :: (splitOnChar sep s).tail := by
  intro a
  induction a with
  | nil =>
    intro s _
    rcases hsplit : splitOnChar sep s with _ | ⟨hd, r⟩
    · exact absurd hsplit (splitOnChar_ne_nil sep s)
    · simp [hsplit]
  | cons c a' ih =>
    intro s hns
    have hc : c ≠ sep := by
      intro hc; exact hns (hc ▸ List.mem_cons_self c a')
    have hna : sep ∉ a' := fun hmem => hns (List.mem_cons_of_mem c hmem)
    have hrec := ih s hna
    simp only [List.cons_append, splitOnChar, hc, if_false]
    rw [show a'.append s = a' ++ s from rfl, hrec]

theorem splitOnChar_nosep (sep : Char) (b : List Char) (h : sep ∉ b) :
    splitOnChar sep b = [b] := by
  have := splitOnChar_append_nosep sep b [] h
  simpa [splitOnChar] using this

theorem splitOnChar_two (sep : Char) (a b : List Char)
    (ha : sep ∉ a) (hb : sep ∉ b) :
    splitOnChar sep (a ++ sep :: b) = [a, b] := by
  have hmain := splitOnChar_append_nosep sep a (sep :: b) ha
  rw [hmain]
  simp [splitOnChar, splitOnChar_nosep sep b hb]

theorem truncList_idem (l : List Char) : truncList (truncList l) = truncList l := by
  by_cases h : (splitOnChar '.' l).length ≤ 2
  · simp [truncList, h]
  · have h2 : 2 < (splitOnChar '.' l).length := Nat.lt_of_not_le h
    have hres : truncList l =
        joinDot ((splitOnChar '.' l).drop ((splitOnChar '.' l).length - 2)) := by
      simp [truncList, h]
    set parts := splitOnChar '.' l with hparts
    have hlen : (parts.drop (parts.length - 2)).length = 2 := by
      rw [List.length_drop]
      omega
    obtain ⟨a, b, hab⟩ := List.length_eq_two.mp hlen
    have hadrop : a ∈ parts := by
      have : a ∈ parts.drop (parts.length - 2) := by rw [hab]; simp
      exact List.mem_of_mem_drop this
    have hbdrop : b ∈ parts := by
      have : b ∈ parts.drop (parts.length - 2) := by rw [hab]; simp
      exact List.mem_of_mem_drop this
    have hna : '.' ∉ a := not_mem_of_mem_splitOnChar '.' l a hadrop
    have hnb : '.' ∉ b := not_mem_of_mem_splitOnChar '.' l b hbdrop
    have hjoin : joinDot (parts.drop (parts.length - 2)) = a ++ '.' :: b := by
      rw [hab]; rfl
    rw [hres, hjoin]
    have hsplit2 : splitOnChar '.' (a ++ '.' :: b) = [a, b] :=
      splitOnChar_two '.' a b hna hnb
    simp [truncList, hsplit2]

theorem firstSome_eq_none_of_suffix {f : List Char → Option (List Char)} :
    ∀ {s t : List Char}, firstSome f s = none → t <:+ s → f t = none := by
  intro s
  induction s with
  | nil =>
    intro t hnone hsuf
    rw [List.suffix_nil.mp hsuf]
    exact hnone
  | cons c s' ih =>
    intro t hnone hsuf
    have hstep : f (c :: s') = none ∧ firstSome f s' = none := by
      by_cases h : f (c :: s') = none
      · refine ⟨h, ?_⟩
        simpa [firstSome, h] using hnone
      · rcases Option.ne_none_iff_exists.mp h with ⟨r, hr⟩
        rw [firstSome, ← hr] at hnone
        simp at hnone
    obtain ⟨u, hu⟩ := hsuf
    cases u with
    | nil =>
      simp at hu
      rw [hu]
      exact hstep.1
    | cons x u' =>
      have : u' ++ t = s' := by
        have := hu
        simp [List.cons_append] at this
        exact this.2
      exact ih hstep.2 ⟨u', this⟩

theorem firstSome_some_suffix {f : List Char → Option (List Char)}
    {s m : List Char} (h : firstSome f s = some m) :
    ∃ t, t <:+ s ∧ f t = some m := by
  induction s with
  | nil => exact ⟨[], List.suffix_refl [], h⟩
  | cons c s' ih =>
    rcases hc : f (c :: s') with _ | r
    · have h' : firstSome f s' = some m := by
        simpa [firstSome, hc] using h
      obtain ⟨t, hsuf, hf⟩ := ih h'
      exact ⟨t, hsuf.trans (List.suffix_cons c s'), hf⟩
    · have hrm : r = m := by
        have := h
        simp only [firstSome, hc] at this
        exact Option.some.inj this
      exact ⟨c :: s', List.suffix_refl _, by rw [hc, hrm]⟩

theorem crioAt_hex {s m : List Char} (h : crioAt s = some m) :
    ∃ rest, rest <:+ s ∧ hexAt rest = some m := by
  by_cases hp : s.take 5 = ['c', 'r', 'i', 'o', '-']
  · refine ⟨s.drop 5, List.drop_suffix 5 s, ?_⟩
    simpa [crioAt, hp] using h
  · simp [crioAt, hp] at h

theorem containerdAt_hex {s m : List Char} (h : containerdAt s = some m) :
    ∃ rest, rest <:+ s ∧ hexAt rest = some m := by
  by_cases hp : s.take 13 = ['c', 'o', 'n', 't', 'a', 'i', 'n', 'e', 'r',
      'd', ':', '/', '/']
  · refine ⟨s.drop 13, List.drop_suffix 13 s, ?_⟩
    simpa [containerdAt, hp] using h
  · simp [containerdAt, hp] at h

theorem firstSome_crioAt_none {p : List Char}
    (h : firstSome hexAt p = none) : firstSome crioAt p = none := by
  by_contra hne
  rcases Option.ne_none_iff_exists.mp hne with ⟨m, hm⟩
  obtain ⟨t, hsuf, hf⟩ := firstSome_some_suffix hm.symm
  obtain ⟨rest, hrsuf, hhex⟩ := crioAt_hex hf
  have : hexAt rest = none :=
    firstSome_eq_none_of_suffix h (hrsuf.trans hsuf)
  rw [this] at hhex
  exact Option.noConfusion hhex

theorem firstSome_containerdAt_none {p : List Char}
    (h : firstSome hexAt p = none) : firstSome containerdAt p = none := by
  by_contra hne
  rcases Option.ne_none_iff_exists.mp hne with ⟨m, hm⟩
  obtain ⟨t, hsuf, hf⟩ := firstSome_some_suffix hm.symm
  obtain ⟨rest, hrsuf, hhex⟩ := containerdAt_hex hf
  have : hexAt rest = none :=
    firstSome_eq_none_of_suffix h (hrsuf.trans hsuf)
  rw [this] at hhex
  exact Option.noConfusion hhex

/-! ### Claim C5 -/

/-- C5: after `release(e)`, the next `acquire()` returns an event whose
discriminator is `unknown`, whose label and numeric maps are empty, and
whose primitive and string fields are zeroed / empty. -/
theorem c5_release_then_acquire_clean (p : Pool) (e : Event) :
    ((acquire (release p e)).1).typ = .unknown ∧
    ((acquire (release p e)).1).labels = [] ∧
    ((acquire (release p e)).1).numeric = [] ∧
    ((acquire (release p e)).1).pid = 0 ∧
    ((acquire (release p e)).1).uid = 0 ∧
    ((acquire (release p e)).1).timestamp = 0 ∧
    ((acquire (release p e)).1).comm = "" ∧
    ((acquire (release p e)).1).node = "" ∧
    ((acquire (release p e)).1).ns = "" ∧
    ((acquire (release p e)).1).pod = "" := by
  simp [acquire, release, clearEvent]

/-! ### Claim C10 -/

/-- C10: `TruncateDomain` is idempotent, and is the identity on inputs
with at most two dot-separated labels. -/
theorem c10_truncateDomain_idem (x : String) :
    TruncateDomain (TruncateDomain x) = TruncateDomain x ∧
    ((splitOnChar '.' x.data).length ≤ 2 → TruncateDomain x = x) := by
  constructor
  · exact congrArg String.mk (truncList_idem x.data)
  · intro h
    have hid : truncList x.data = x.data := by simp [truncList, h]
    show (⟨truncList x.data⟩ : String) = x
    rw [hid]

/-- Witness for C10 at the concrete input "google.com". -/
theorem c10_truncateDomain_idem_witness :
    TruncateDomain (TruncateDomain "google.com") = TruncateDomain "google.com" ∧
    TruncateDomain "google.com" = "google.com" :=
  ⟨(c10_truncateDomain_idem "google.com").1,
   (c10_truncateDomain_idem "google.com").2 (by decide)⟩

/-! ### Claim C9 -/

/-- C9: decoding a raw TCP record with latency 12400000 ns, destination
address 0x0100A8C0 and destination port 443 yields an event of type tcp
with numeric latency_sec 0.0124 and label dst 192.168.0.1:443. -/
theorem c9_tcp_decode (saddr sport pid uid ts now : Nat)
    (comm node : String) (meta : Option PodMeta) :
    (handleTCP ⟨pid, uid, saddr, 0x0100A8C0, sport, 443, 12400000, ts, comm⟩
        now node meta).typ = .tcp ∧
    getKV (handleTCP ⟨pid, uid, saddr, 0x0100A8C0, sport, 443, 12400000, ts,
        comm⟩ now node meta).numeric "latency_sec" = some (0.0124 : Rat) ∧
    getKV (handleTCP ⟨pid, uid, saddr, 0x0100A8C0, sport, 443, 12400000, ts,
        comm⟩ now node meta).labels "dst" = some "192.168.0.1:443" := by
  refine ⟨rfl, ?_, ?_⟩
  · show getKV (setKV (setKV [] "latency_sec" ((12400000 : Rat) / (1e9 : Rat)))
      "latency_ns" ((12400000 : Rat))) "latency_sec" = some (0.0124 : Rat)
    norm_num [setKV, getKV]
  · show getKV (setKV (setKV [] "src" _) "dst"
      (FormatIPv4 0x0100A8C0 ++ ":" ++ Nat.repr 443)) "dst"
      = some "192.168.0.1:443"
    simp only [setKV, getKV]
    norm_num
    rfl

/-! ### Claim C6 -/

/-- C6 counterexample: for the empty query name, the DNS module sets the
domain label to the empty string, not to "unknown". -/
theorem c6_empty_qname_not_unknown :
    getKV (handleDNS "" 7 0 0 "curl" "node1" none).labels "domain"
      = some "" ∧ ("" : String) ≠ "unknown" := by
  decide

/-- C6 as amended: the DNS module sets the domain label to
`TruncateDomain` of the qname, which joins the last two dot-separated
labels for names with more than two labels and returns the name itself —
including the empty name — otherwise; no input maps to "unknown". -/
theorem c6_dns_domain_label (qname : String) (pid uid now : Nat)
    (comm node : String) (meta : Option PodMeta) :
    getKV (handleDNS qname pid uid now comm node meta).labels "domain"
      = some (TruncateDomain qname) ∧
    TruncateDomain qname =
      (if (splitOnChar '.' qname.data).length ≤ 2 then qname
       else ⟨joinDot ((splitOnChar '.' qname.data).drop
              ((splitOnChar '.' qname.data).length - 2))⟩) := by
  constructor
  · simp [handleDNS, setKV, getKV]
  · by_cases h : (splitOnChar '.' qname.data).length ≤ 2
    · rw [if_pos h]
      have hid : truncList qname.data = qname.data := by simp [truncList, h]
      show (⟨truncList qname.data⟩ : String) = qname
      rw [hid]
    · rw [if_neg h]
      show (⟨truncList qname.data⟩ : String) = _
      have : truncList qname.data =
          joinDot ((splitOnChar '.' qname.data).drop
            ((splitOnChar '.' qname.data).length - 2)) := by
        simp [truncList, h]
      rw [this]

/-! ### Claim C4 -/

/-- C4 counterexample: a second subscribe under an existing name does
not fail and does not leave the registration unchanged — the buffered
event of the first channel is gone because a fresh channel replaced it. -/
theorem c4_resubscribe_replaces_channel :
    getKV (stats (publish (subscribe (newBus 4) "s") emptyEvent)).queueDepth
      "s" = some 1 ∧
    getKV (stats (subscribe (publish (subscribe (newBus 4) "s") emptyEvent)
      "s")).queueDepth "s" = some 0 := by
  decide

/-- C4 as amended: a subscribe call with an already-registered name
succeeds and replaces the registration: afterwards the name maps to a
fresh empty channel with a reset drop counter. -/
theorem c4_subscribe_overwrites (b : Bus) (name : String) :
    getKV (subscribe b name).subs name = some ⟨[], 0⟩ :=
  getKV_setKV_self b.subs name ⟨[], 0⟩

/-! ### Claim C2 -/

/-- C2: the code adds the absolute dropped snapshot on every tick
instead of a delta.  With a subscriber whose dropped count is 8, after
two collection ticks with no new drops the exporter counter reads 16
while the bus counter still reads 8 — the claimed equality fails. -/
theorem c2_collect_adds_absolute_not_delta :
    getKV (stats (List.foldl publish (subscribe (newBus 2) "slow")
      (List.replicate 10 emptyEvent))).droppedBySubscriber "slow"
      = some 8 ∧
    getKV (collectTick (collectTick ⟨[], []⟩
      (stats (List.foldl publish (subscribe (newBus 2) "slow")
        (List.replicate 10 emptyEvent))))
      (stats (List.foldl publish (subscribe (newBus 2) "slow")
        (List.replicate 10 emptyEvent)))).eventsDropped "slow"
      = some 16 := by
  decide

/-! ### Claim C3 -/

/-- C3 counterexample: after the pod and its container-index entry are
deleted, a lookup of pid 42 still reports found, served from the cached
unexpired PID entry, although the container index no longer contains the
cgroup-derived id c1. -/
theorem c3_found_after_deletePod :
    ((lookupC cacheCE2 42 1).1).isSome = true ∧
    getKV cacheCE2.containerIndex "c1" = none := by
  decide

/-- C3 as amended: lookup reports found exactly when the PID cache holds
an unexpired entry for the pid, or the resolved container id is present
in the container index; after delete_pod a lookup reports not-found only
once the cached PID entry is cleared or expired. -/
theorem c3_lookup_found_iff (c : MCache) (pid now : Nat) :
    ((lookupC c pid now).1).isSome = true ↔
      ((∃ m e, getKV c.entries pid = some (m, e) ∧ now < e) ∨
       (∃ cid m, c.resolve pid = some cid ∧
          getKV c.containerIndex cid = some m)) := by
  rcases h1 : getKV c.entries pid with _ | ⟨m, exp⟩
  · rcases h2 : c.resolve pid with _ | cid
    · simp [lookupC, lookupMiss, h1, h2]
    · rcases h3 : getKV c.containerIndex cid with _ | pm
      · simp [lookupC, lookupMiss, h1, h2, h3]
      · simp [lookupC, lookupMiss, h1, h2, h3]
  · by_cases hexp : now < exp
    · simp only [lookupC, h1, if_pos hexp, Option.isSome_some]
      constructor
      · intro _
        exact Or.inl ⟨m, exp, rfl, hexp⟩
      · intro _
        trivial
    · rcases h2 : c.resolve pid with _ | cid
      · simp [lookupC, lookupMiss, h1, h2, hexp]
        omega
      · rcases h3 : getKV c.containerIndex cid with _ | pm
        · simp [lookupC, lookupMiss, h1, h2, h3, hexp]
          omega
        · simp [lookupC, lookupMiss, h1, h2, h3, hexp]

/-! ### Claim C8 -/

set_option maxRecDepth 100000 in
/-- C8 counterexample: on a line whose third field carries a bare hex64
id before a crio-prefixed one, the code returns the bare id (its first
pattern) while the spec order crio-first would return the crio capture;
the two extraction orders disagree. -/
theorem c8_order_disagrees :
    extractContainerID ceLine = hexA ∧
    specOrderExtractContainerID ceLine = hexB ∧
    hexA ≠ hexB := by
  decide

/-- C8 as amended: the code tries the bare `[a-f0-9]{64}` pattern first,
so the id extracted from a line with at least three colon-separated
fields is the leftmost 64-char lowercase-hex run of the third field, and
a line without such a run yields no id. -/
theorem c8_extract_is_leftmost_hex (line : List Char) :
    extractContainerID line = leftmostHexExtract line := by
  unfold extractContainerID leftmostHexExtract
  by_cases h : (splitOnChar ':' line).length < 3
  · simp [h]
  · simp only [h, if_false]
    rcases hfs : firstSome hexAt ((splitOnChar ':' line).getD 2 []) with _ | m
    · rw [firstSome_crioAt_none hfs, firstSome_containerdAt_none hfs]
      rfl
    · rfl

/-! ### Claim C1 -/

theorem publish_foldl_single (B : Nat) (n : String) :
    ∀ (es : List Event) (p d : Nat) (q : List Event), q.length ≤ B →
      ∃ q' : List Event,
        List.foldl publish ⟨B, [(n, ⟨q, d⟩)], p, false⟩ es
          = ⟨B, [(n, ⟨q', d + (q.length + es.length - B)⟩)],
              p + es.length, false⟩
        ∧ q'.length = min (q.length + es.length) B := by
  intro es
  induction es with
  | nil =>
    intro p d q hq
    refine ⟨q, ?_, ?_⟩
    · simp only [List.foldl_nil, List.length_nil, Nat.add_zero]
      rw [Nat.sub_eq_zero_of_le hq, Nat.add_zero]
    · simp only [List.length_nil, Nat.add_zero]
      exact (min_eq_left hq).symm
  | cons e es ih =>
    intro p d q hq
    rw [List.foldl_cons]
    have hpub : publish ⟨B, [(n, ⟨q, d⟩)], p, false⟩ e
        = ⟨B, [(n, publishOne B e ⟨q, d⟩)], p + 1, false⟩ := by
      simp [publish]
    rw [hpub]
    by_cases hlt : q.length < B
    · have hq1 : (q ++ [e]).length ≤ B := by
        simp only [List.length_append, List.length_cons, List.length_nil]
        omega
      have hpo : publishOne B e ⟨q, d⟩ = ⟨q ++ [e], d⟩ := by
        simp [publishOne, hlt]
      rw [hpo]
      obtain ⟨q', heq, hlenq⟩ := ih (p + 1) d (q ++ [e]) hq1
      refine ⟨q', ?_, ?_⟩
      · rw [heq]
        have e1 : d + ((q ++ [e]).length + es.length - B)
            = d + (q.length + (e :: es).length - B) := by
          simp only [List.length_append, List.length_cons, List.length_nil]
          omega
        have e2 : p + 1 + es.length = p + (e :: es).length := by
          simp only [List.length_cons]
          omega
        rw [e1, e2]
      · rw [hlenq]
        congr 1
        simp only [List.length_append, List.length_cons, List.length_nil]
        omega
    · have hqB : q.length = B := Nat.le_antisymm hq (Nat.not_lt.mp hlt)
      have hpo : publishOne B e ⟨q, d⟩ = ⟨q, d + 1⟩ := by
        simp [publishOne, hlt]
      rw [hpo]
      obtain ⟨q', heq, hlenq⟩ := ih (p + 1) (d + 1) q hq
      refine ⟨q', ?_, ?_⟩
      · rw [heq]
        have e1 : d + 1 + (q.length + es.length - B)
            = d + (q.length + (e :: es).length - B) := by
          simp only [List.length_cons]
          omega
        have e2 : p + 1 + es.length = p + (e :: es).length := by
          simp only [List.length_cons]
          omega
        rw [e1, e2]
      · rw [hlenq, hqB]
        simp only [List.length_cons]
        rw [min_eq_right (Nat.le_add_right B es.length),
          min_eq_right (Nat.le_add_right B (es.length + 1))]

/-- C1: a single subscriber of buffer capacity B that never receives —
after publishing a list of at least B events, the stats snapshot reports
published equal to the number of events, the subscriber's dropped count
equal to that number minus B, and its queue depth equal to B. -/
theorem c1_slow_subscriber_stats (B : Nat) (es : List Event)
    (hB : 0 < B) (hlen : B ≤ es.length) :
    (stats (List.foldl publish (subscribe (newBus B) "slow") es)).published
      = es.length ∧
    getKV (stats (List.foldl publish (subscribe (newBus B) "slow")
      es)).droppedBySubscriber "slow" = some (es.length - B) ∧
    getKV (stats (List.foldl publish (subscribe (newBus B) "slow")
      es)).queueDepth "slow" = some B := by
  have hsub : subscribe (newBus B) "slow"
      = ⟨B, [("slow", ⟨[], 0⟩)], 0, false⟩ := by
    simp [subscribe, newBus, setKV, Nat.pos_iff_ne_zero.mp hB]
  obtain ⟨q', heq, hlenq⟩ :=
    publish_foldl_single B "slow" es 0 0 [] (by simp)
  have hq'B : q'.length = B := by
    rw [hlenq]
    simp only [List.length_nil, Nat.zero_add]
    exact min_eq_right hlen
  rw [hsub, heq]
  refine ⟨by simp [stats], ?_, ?_⟩
  · simp [stats, getKV]
  · simp [stats, getKV, hq'B]

/-- C1 witness at B = 2 with 10 published events. -/
theorem c1_slow_subscriber_stats_witness :
    (stats (List.foldl publish (subscribe (newBus 2) "slow")
      (List.replicate 10 emptyEvent))).published = 10 ∧
    getKV (stats (List.foldl publish (subscribe (newBus 2) "slow")
      (List.replicate 10 emptyEvent))).droppedBySubscriber "slow"
      = some 8 ∧
    getKV (stats (List.foldl publish (subscribe (newBus 2) "slow")
      (List.replicate 10 emptyEvent))).queueDepth "slow" = some 2 := by
  have h := c1_slow_subscriber_stats 2 (List.replicate 10 emptyEvent)
    (by decide) (by decide)
  simpa using h

/-! ### Claim C7 -/

theorem setC_entries_le (c : MCache) (pid : Nat) (meta : PodMeta) (now : Nat)
    (h4 : 4 ≤ c.maxSize) (hle : c.entries.length ≤ c.maxSize) :
    (setC c pid meta now).entries.length ≤ c.maxSize := by
  show (setKV (if c.maxSize ≤ c.entries.length then evictC c now
    else c.entries) pid (meta, now + c.ttl)).length ≤ c.maxSize
  by_cases hfull : c.maxSize ≤ c.entries.length
  · rw [if_pos hfull]
    have hq1 : 1 ≤ c.maxSize / 4 := by
      omega
    have hkept : (c.entries.filter
        (fun kv => ¬ (kv.2.2 < now))).length ≤ c.entries.length :=
      List.length_filter_le _ _
    have hstep := length_setKV_le (evictC c now) pid (meta, now + c.ttl)
    refine hstep.trans ?_
    show (evictC c now).length + 1 ≤ c.maxSize
    unfold evictC
    by_cases hstill : c.maxSize ≤ (c.entries.filter
        (fun kv => ¬ (kv.2.2 < now))).length
    · rw [if_pos hstill]
      rw [List.length_drop]
      omega
    · rw [if_neg hstill]
      omega
  · rw [if_neg hfull]
    have hstep := length_setKV_le c.entries pid (meta, now + c.ttl)
    omega

theorem setC_maxSize (c : MCache) (pid : Nat) (meta : PodMeta) (now : Nat) :
    (setC c pid meta now).maxSize = c.maxSize := rfl

theorem lookupC_inv (c : MCache) (pid now : Nat)
    (h4 : 4 ≤ c.maxSize) (hle : c.entries.length ≤ c.maxSize) :
    ((lookupC c pid now).2).maxSize = c.maxSize ∧
    ((lookupC c pid now).2).entries.length ≤ c.maxSize := by
  have hmiss : ((lookupMiss c pid now).2).maxSize = c.maxSize ∧
      ((lookupMiss c pid now).2).entries.length ≤ c.maxSize := by
    unfold lookupMiss
    rcases c.resolve pid with _ | cid
    · exact ⟨rfl, hle⟩
    · dsimp only
      rcases getKV c.containerIndex cid with _ | meta
      · exact ⟨rfl, hle⟩
      · exact ⟨setC_maxSize c pid meta now, setC_entries_le c pid meta now h4 hle⟩
  unfold lookupC
  rcases getKV c.entries pid with _ | ⟨m, exp⟩
  · exact hmiss
  · dsimp only
    by_cases hexp : now < exp
    · rw [if_pos hexp]
      exact ⟨rfl, hle⟩
    · rw [if_neg hexp]
      exact hmiss

theorem applyOp_inv (c : MCache) (op : COp)
    (h4 : 4 ≤ c.maxSize) (hle : c.entries.length ≤ c.maxSize) :
    (applyOp c op).maxSize = c.maxSize ∧
    (applyOp c op).entries.length ≤ c.maxSize := by
  cases op with
  | lookup pid now => exact lookupC_inv c pid now h4 hle
  | insert pid meta now =>
    exact ⟨setC_maxSize c pid meta now, setC_entries_le c pid meta now h4 hle⟩
  | update cid meta => exact ⟨rfl, hle⟩
  | remove cid => exact ⟨rfl, hle⟩

/-- C7 counterexample: with max_size 1 (the claim admits any max_size at
least 1), two inserts of distinct pids with unexpired entries leave the
PID cache holding 2 entries, exceeding max_size — the quarter to evict,
1 / 4, rounds to zero. -/
theorem c7_maxsize_one_exceeded :
    (runOps (newMCache 1 100 (fun _ => none))
      [.insert 1 metaA 0, .insert 2 metaA 0]).entries.length = 2 ∧
    (newMCache 1 100 (fun _ => none)).maxSize = 1 := by
  constructor
  · rfl
  · rfl

/-- C7 as amended: for every configured max_size of at least 4 — so that
the quarter `max_size / 4` to evict is non-zero — and every sequence of
lookup, insert, update-pod and delete-pod operations, the PID cache
never holds more than max_size entries.  (For max_size 1 to 3 the
quarter rounds to zero and the bound can be exceeded.) -/
theorem c7_cache_never_exceeds_maxSize (ops : List COp) (maxSize ttl : Nat)
    (res : Nat → Option String) (h4 : 4 ≤ maxSize) :
    (runOps (newMCache maxSize ttl res) ops).entries.length ≤ maxSize := by
  have hms : (newMCache maxSize ttl res).maxSize = maxSize := by
    have : maxSize ≠ 0 := by omega
    simp [newMCache, this]
  suffices h : ∀ (c : MCache), c.maxSize = maxSize →
      c.entries.length ≤ maxSize → (runOps c ops).entries.length ≤ maxSize by
    exact h _ hms (by simp [newMCache])
  induction ops with
  | nil =>
    intro c _ h2
    exact h2
  | cons op rest ih =>
    intro c h1 h2
    have hinv := applyOp_inv c op (h1 ▸ h4) (h1 ▸ h2)
    exact ih (applyOp c op) (hinv.1.trans h1) (h1 ▸ hinv.2)

/-- C7 witness: max_size 4, five inserts, bound holds. -/
theorem c7_cache_never_exceeds_maxSize_witness :
    (4 ≤ 4) ∧
    (runOps (newMCache 4 60 (fun _ => none))
      [.insert 1 metaA 0, .insert 2 metaA 0, .insert 3 metaA 0,
       .insert 4 metaA 0, .insert 5 metaA 0]).entries.length ≤ 4 :=
  ⟨by decide,
   c7_cache_never_exceeds_maxSize
     [.insert 1 metaA 0, .insert 2 metaA 0, .insert 3 metaA 0,
      .insert 4 metaA 0, .insert 5 metaA 0] 4 60 (fun _ => none) (by decide)⟩

end KubePulse

